import Mathlib

/-!
Verification of the authentication core of Aarogya-Saathi (`src/app/auth.py`):
salted SHA-256 password hashing (`hash_password`, `verify_password`) and the
in-memory session registry (`create_session`, `get_session`, `delete_session`).

Python strings are modelled as lists of unicode scalar values (`List Char`);
`str.encode()` is modelled as UTF-8 byte lists; `hashlib.sha256(..).hexdigest()`
is modelled by a full FIPS 180-4 SHA-256 over `Nat` words reduced mod `2 ^ 32`;
`secrets.token_hex(16)` and `secrets.token_urlsafe(32)` are modelled by taking
the random draw (the hex characters, resp. the 32 random bytes) as an explicit
parameter, constrained by the predicate the library guarantees.  The session
dictionary is modelled as a map from tokens to optional sessions, and
`datetime.now()` as an explicit integer timestamp in microseconds (the
resolution of Python datetimes).  All operations are total Lean functions:
the only exception path in the source, the `ValueError` caught inside
`verify_password`, is modelled by the catch-all match branch that yields
`false`, exactly as the `except ValueError: return False` handler does.
-/

set_option maxRecDepth 8192

namespace AarogyaSaathi

/-- Python `str`: a sequence of unicode scalar values. -/
abbrev Str := List Char

/-! ### `str.encode()`: UTF-8 -/

/-- UTF-8 encoding of one unicode scalar value, as Python `str.encode()` emits it. -/
def utf8EncodeChar (c : Char) : List Nat :=
  let n := c.toNat
  if n < 128 then [n]
  else if n < 2048 then [192 ||| (n >>> 6), 128 ||| (n &&& 63)]
  else if n < 65536 then
    [224 ||| (n >>> 12), 128 ||| ((n >>> 6) &&& 63), 128 ||| (n &&& 63)]
  else
    [240 ||| (n >>> 18), 128 ||| ((n >>> 12) &&& 63), 128 ||| ((n >>> 6) &&& 63),
      128 ||| (n &&& 63)]

/-- Python `s.encode()`: the UTF-8 bytes of the string. -/
def utf8Encode (s : Str) : List Nat := (s.map utf8EncodeChar).flatten

/-! ### SHA-256 (FIPS 180-4), words as `Nat` reduced mod `2 ^ 32` -/

def add32 (a b : Nat) : Nat := (a + b) % 2 ^ 32

def rotr32 (n x : Nat) : Nat := ((x >>> n) ||| (x <<< (32 - n))) % 2 ^ 32

def not32 (x : Nat) : Nat := x ^^^ (2 ^ 32 - 1)

def bSig0 (x : Nat) : Nat := rotr32 2 x ^^^ rotr32 13 x ^^^ rotr32 22 x

def bSig1 (x : Nat) : Nat := rotr32 6 x ^^^ rotr32 11 x ^^^ rotr32 25 x

def sSig0 (x : Nat) : Nat := rotr32 7 x ^^^ rotr32 18 x ^^^ (x >>> 3)

def sSig1 (x : Nat) : Nat := rotr32 17 x ^^^ rotr32 19 x ^^^ (x >>> 10)

def ch32 (x y z : Nat) : Nat := (x &&& y) ^^^ (not32 x &&& z)

def maj32 (x y z : Nat) : Nat := (x &&& y) ^^^ (x &&& z) ^^^ (y &&& z)

/-- The 64 SHA-256 round constants (FIPS 180-4 §4.2.2, written in decimal). -/
def shaK : List Nat :=
  [1116352408, 1899447441, 3049323471, 3921009573, 961987163,
   1508970993, 2453635748, 2870763221, 3624381080, 310598401,
   607225278, 1426881987, 1925078388, 2162078206, 2614888103,
   3248222580, 3835390401, 4022224774, 264347078, 604807628,
   770255983, 1249150122, 1555081692, 1996064986, 2554220882,
   2821834349, 2952996808, 3210313671, 3336571891, 3584528711,
   113926993, 338241895, 666307205, 773529912, 1294757372,
   1396182291, 1695183700, 1986661051, 2177026350, 2456956037,
   2730485921, 2820302411, 3259730800, 3345764771, 3516065817,
   3600352804, 4094571909, 275423344, 430227734, 506948616,
   659060556, 883997877, 958139571, 1322822218, 1537002063,
   1747873779, 1955562222, 2024104815, 2227730452, 2361852424,
   2428436474, 2756734187, 3204031479, 3329325298]

/-- The initial SHA-256 hash state (FIPS 180-4 §5.3.3, written in decimal). -/
def shaH0 : List Nat :=
  [1779033703, 3144134277, 1013904242, 2773480762,
   1359893119, 2600822924, 528734635, 1541459225]

/-- `v` written as `n` big-endian bytes. -/
def beBytes (n v : Nat) : List Nat :=
  (List.range n).map (fun i => (v >>> (8 * (n - 1 - i))) % 256)

/-- SHA-256 message padding: append `0x80`, zeros and the 64-bit bit length so
the total length is a multiple of 64 bytes. -/
def shaPad (msg : List Nat) : List Nat :=
  msg ++ [128] ++ List.replicate ((119 - msg.length % 64) % 64) 0
      ++ beBytes 8 (8 * msg.length)

/-- Group a byte list into big-endian 32-bit words (fuel-driven structural
recursion so that the kernel can evaluate it). -/
def toWordsAux : Nat → List Nat → List Nat
  | 0, _ => []
  | _ + 1, [] => []
  | fuel + 1, l => (l.take 4).foldl (fun a b => a * 256 + b) 0 :: toWordsAux fuel (l.drop 4)

/-- Split a byte list into 64-byte blocks. -/
def toBlocksAux : Nat → List Nat → List (List Nat)
  | 0, _ => []
  | _ + 1, [] => []
  | fuel + 1, l => l.take 64 :: toBlocksAux fuel (l.drop 64)

/-- One message-schedule extension step: append
`σ1(w[t-2]) + w[t-7] + σ0(w[t-15]) + w[t-16]  (mod 2 ^ 32)`. -/
def schedStep (ws : List Nat) : List Nat :=
  ws ++ [(sSig1 (ws.getD (ws.length - 2) 0) + ws.getD (ws.length - 7) 0
          + sSig0 (ws.getD (ws.length - 15) 0) + ws.getD (ws.length - 16) 0) % 2 ^ 32]

/-- Extend the 16 block words to the 64 schedule words. -/
def schedule (ws : List Nat) : List Nat :=
  (List.range 48).foldl (fun w _ => schedStep w) ws

/-- One SHA-256 compression round on the state `[a, b, c, d, e, f, g, h]`;
`kw` is `K[t] + W[t]` already reduced mod `2 ^ 32`. -/
def shaRound (st : List Nat) (kw : Nat) : List Nat :=
  match st with
  | [a, b, c, d, e, f, g, h] =>
    let t1 := (h + bSig1 e + ch32 e f g + kw) % 2 ^ 32
    let t2 := (bSig0 a + maj32 a b c) % 2 ^ 32
    [(t1 + t2) % 2 ^ 32, a, b, c, (d + t1) % 2 ^ 32, e, f, g]
  | other => other

/-- Compress one 64-byte block into the running hash state. -/
def compressBlock (H : List Nat) (block : List Nat) : List Nat :=
  let ws := schedule (toWordsAux block.length block)
  let kws := (shaK.zip ws).map (fun p => (p.1 + p.2) % 2 ^ 32)
  (H.zip (kws.foldl shaRound H)).map (fun p => add32 p.1 p.2)

/-- The SHA-256 digest of a byte list, as the 256-bit big-endian integer the
eight final state words denote. -/
def sha256Nat (msg : List Nat) : Nat :=
  let padded := shaPad msg
  (((toBlocksAux padded.length padded).foldl compressBlock shaH0).foldl
      (fun a w => a * 2 ^ 32 + w % 2 ^ 32) 0) % 2 ^ 256

/-- The lowercase hex digit for a nibble, as Python `hexdigest` prints it. -/
def hexDigit (d : Nat) : Char :=
  if d < 10 then Char.ofNat (48 + d) else Char.ofNat (87 + d)

/-- The last `n` lowercase hex digits of `v`, most significant first,
in front of `acc`. -/
def natToHexAux : Nat → Nat → List Char → List Char
  | 0, _, acc => acc
  | n + 1, v, acc => natToHexAux n (v / 16) (hexDigit (v % 16) :: acc)

/-- Python `hashlib.sha256(msg).hexdigest()`: 64 lowercase hex characters. -/
def sha256hexdigest (msg : List Nat) : Str := natToHexAux 64 (sha256Nat msg) []

/-! ### `secrets.token_hex` and `secrets.token_urlsafe` -/

/-- A character `secrets.token_hex` can emit: a lowercase hex digit. -/
def isLowerHexChar (c : Char) : Bool :=
  (48 ≤ c.toNat && c.toNat ≤ 57) || (97 ≤ c.toNat && c.toNat ≤ 102)

/-- The strings `secrets.token_hex(16)` can return: 32 lowercase hex
characters (16 random bytes, two hex digits each). -/
def isTokenHex16 (s : Str) : Bool := s.length == 32 && s.all isLowerHexChar

/-- The URL-safe base64 alphabet used by `base64.urlsafe_b64encode`. -/
def b64UrlChars : Str :=
  "ABCDEFGHIJKLMNOPQRSTUVWXYZabcdefghijklmnopqrstuvwxyz0123456789-_".data

def b64Char (n : Nat) : Char := b64UrlChars.getD n 'A'

/-- URL-safe base64 of a byte list without `=` padding (as
`secrets.token_urlsafe` strips it); fuel-driven structural recursion. -/
def b64UrlEncodeAux : Nat → List Nat → Str
  | 0, _ => []
  | _ + 1, [] => []
  | _ + 1, [b1] =>
    [b64Char ((b1 >>> 2) &&& 63), b64Char ((b1 <<< 4) &&& 63)]
  | _ + 1, [b1, b2] =>
    [b64Char ((b1 >>> 2) &&& 63), b64Char (((b1 <<< 4) ||| (b2 >>> 4)) &&& 63),
     b64Char ((b2 <<< 2) &&& 63)]
  | fuel + 1, b1 :: b2 :: b3 :: rest =>
    b64Char ((b1 >>> 2) &&& 63) :: b64Char (((b1 <<< 4) ||| (b2 >>> 4)) &&& 63)
      :: b64Char (((b2 <<< 2) ||| (b3 >>> 6)) &&& 63) :: b64Char (b3 &&& 63)
      :: b64UrlEncodeAux fuel rest

/-- `secrets.token_urlsafe` applied to the given random bytes:
URL-safe base64 with the `=` padding stripped. -/
def token_urlsafe (randomBytes : List Nat) : Str :=
  b64UrlEncodeAux randomBytes.length randomBytes

/-- A URL-safe character: letter, digit, `-` or `_`. -/
def isUrlSafeChar (c : Char) : Bool :=
  (65 ≤ c.toNat && c.toNat ≤ 90) || (97 ≤ c.toNat && c.toNat ≤ 122)
    || (48 ≤ c.toNat && c.toNat ≤ 57) || c == '-' || c == '_'

/-- The length of unpadded base64: 4 characters per full 3-byte group, and 2
or 3 characters for a trailing group of 1 or 2 bytes. -/
def b64Len (n : Nat) : Nat := 4 * (n / 3) + (if n % 3 = 0 then 0 else n % 3 + 1)

/-! ### `auth.py`: password hashing -/

/-- `auth.hash_password`, with the random draw of `secrets.token_hex(16)`
passed in as `salt`: returns `f"{salt}:{sha256((password + salt).encode()).hexdigest()}"`. -/
def hash_password (salt : Str) (password : Str) : Str :=
  salt ++ ':' :: sha256hexdigest (utf8Encode (password ++ salt))

/-- Python `str.split(sep)` for a one-character separator: splits at every
occurrence; the empty string yields `[""]`. -/
def splitOnChar (sep : Char) : Str → List Str
  | [] => [[]]
  | c :: rest =>
    if c = sep then [] :: splitOnChar sep rest
    else
      match splitOnChar sep rest with
      | [] => [[c]]
      | p :: ps => (c :: p) :: ps

/-- `auth.verify_password`: splits the stored credential on `":"`; the
`ValueError` raised when the split does not unpack into exactly two parts is
caught and turned into `False` (the catch-all branch); otherwise recomputes
the salted digest and compares for exact equality. -/
def verify_password (password : Str) (password_hash : Str) : Bool :=
  match splitOnChar ':' password_hash with
  | [salt, stored_hash] => sha256hexdigest (utf8Encode (password ++ salt)) == stored_hash
  | _ => false

/-! ### `auth.py`: session registry -/

/-- One value of the `sessions` dictionary. -/
structure SessionData where
  user_id : Int
  role : Str
  created_at : Int
deriving DecidableEq

/-- The `sessions` dictionary: a map from tokens to stored sessions. -/
abbrev Registry := Str → Option SessionData

/-- `timedelta(hours=24)` in microseconds, the resolution of Python datetimes. -/
def sessionLifetime : Int := 24 * 60 * 60 * 1000000

/-- `auth.create_session`, with `datetime.now()` passed as `now` and the random
bytes drawn by `secrets.token_urlsafe(32)` passed as `randomBytes`: stores
`{user_id, role, created_at = now}` under the fresh token and returns the token. -/
def create_session (now : Int) (randomBytes : List Nat) (uid : Int) (role : Str)
    (sessions : Registry) : Str × Registry :=
  let session_token := token_urlsafe randomBytes
  (session_token,
   fun t => if t = session_token then
       some { user_id := uid, role := role, created_at := now }
     else sessions t)

/-- `auth.get_session`, with `datetime.now()` passed as `now`: returns the
stored session while `now - created_at < 24 hours`, and on an expired entry
deletes it and returns `none`; returns the registry it leaves behind. -/
def get_session (now : Int) (session_token : Str) (sessions : Registry) :
    Option SessionData × Registry :=
  match sessions session_token with
  | some session =>
    if now - session.created_at < sessionLifetime then (some session, sessions)
    else (none, fun t => if t = session_token then none else sessions t)
  | none => (none, sessions)

/-- `auth.delete_session`: removes the entry if present, otherwise leaves the
dictionary untouched; never fails. -/
def delete_session (session_token : Str) (sessions : Registry) : Registry :=
  match sessions session_token with
  | some _ => fun t => if t = session_token then none else sessions t
  | none => sessions

/-! ### Facts about the hex digest -/

theorem natToHexAux_length (n : Nat) :
    ∀ (v : Nat) (acc : List Char), (natToHexAux n v acc).length = n + acc.length := by
  induction n with
  | zero => intro v acc; simp [natToHexAux]
  | succ k ih =>
    intro v acc
    rw [natToHexAux, ih]
    simp
    omega

theorem natToHexAux_forall {P : Char → Prop} (hdig : ∀ d, d < 16 → P (hexDigit d))
    (n : Nat) : ∀ (v : Nat) (acc : List Char), (∀ c ∈ acc, P c) →
    ∀ c ∈ natToHexAux n v acc, P c := by
  induction n with
  | zero => intro v acc hacc; simpa [natToHexAux] using hacc
  | succ k ih =>
    intro v acc hacc
    rw [natToHexAux]
    refine ih _ _ ?_
    intro c hc
    rcases List.mem_cons.mp hc with h | h
    · exact h ▸ hdig _ (Nat.mod_lt _ (by norm_num))
    · exact hacc _ h

theorem sha256hexdigest_length (msg : List Nat) : (sha256hexdigest msg).length = 64 := by
  rw [sha256hexdigest, natToHexAux_length]
  rfl

theorem sha256hexdigest_lowerHex (msg : List Nat) :
    ∀ c ∈ sha256hexdigest msg, isLowerHexChar c = true := by
  refine natToHexAux_forall ?_ 64 _ [] (by simp)
  decide

theorem colon_not_mem_sha256hexdigest (msg : List Nat) : ':' ∉ sha256hexdigest msg := by
  intro h
  have := sha256hexdigest_lowerHex msg ':' h
  simp [isLowerHexChar] at this

theorem colon_not_mem_of_tokenHex {salt : Str} (h : isTokenHex16 salt = true) :
    ':' ∉ salt := by
  intro hmem
  rcases Bool.and_eq_true .. ▸ h with ⟨-, hall⟩
  have := List.all_eq_true.mp hall ':' hmem
  simp [isLowerHexChar] at this

/-! ### Facts about `splitOnChar` -/

theorem splitOnChar_of_not_mem {sep : Char} :
    ∀ {l : Str}, sep ∉ l → splitOnChar sep l = [l] := by
  intro l
  induction l with
  | nil => intro _; rfl
  | cons c rest ih =>
    intro h
    have hc : ¬ c = sep := fun hcs => h (hcs ▸ List.mem_cons_self c rest)
    rw [splitOnChar, if_neg hc, ih (fun hm => h (List.mem_cons_of_mem c hm))]

theorem splitOnChar_append {sep : Char} :
    ∀ {l₁ : Str} (l₂ : Str), sep ∉ l₁ →
      splitOnChar sep (l₁ ++ sep :: l₂) = l₁ :: splitOnChar sep l₂ := by
  intro l₁
  induction l₁ with
  | nil => intro l₂ _; simp [splitOnChar]
  | cons c rest ih =>
    intro l₂ h
    have hc : ¬ c = sep := fun hcs => h (hcs ▸ List.mem_cons_self c rest)
    rw [List.cons_append, splitOnChar, if_neg hc,
      ih l₂ (fun hm => h (List.mem_cons_of_mem c hm))]

/-- Parsing a credential built by `hash_password` recovers exactly the salt and
the digest: the `split(":")` in `verify_password` yields exactly two parts. -/
theorem splitOnChar_hash_password {salt : Str} (p : Str) (h : isTokenHex16 salt = true) :
    splitOnChar ':' (hash_password salt p) =
      [salt, sha256hexdigest (utf8Encode (p ++ salt))] := by
  rw [hash_password, splitOnChar_append _ (colon_not_mem_of_tokenHex h),
    splitOnChar_of_not_mem (colon_not_mem_sha256hexdigest _)]

/-! ### Validation of the primitives against published test vectors -/

theorem sha256_vector_abc :
    sha256hexdigest (utf8Encode "abc".data) =
      "ba7816bf8f01cfea414140de5dae2223b00361a396177a9cb410ff61f20015ad".data := by
  decide

theorem sha256_vector_empty :
    sha256hexdigest (utf8Encode "".data) =
      "e3b0c44298fc1c149afbf4c8996fb92427ae41e4649b934ca495991b7852b855".data := by
  decide

theorem base64url_vector :
    token_urlsafe [0, 1, 2, 250, 251, 252] = "AAEC-vv8".data := by
  decide

/-! ### The hex digest determines the digest value -/

theorem hexDigit_inj : ∀ a < 16, ∀ b < 16, hexDigit a = hexDigit b → a = b := by decide

theorem natToHexAux_inj (n : Nat) :
    ∀ (v₁ v₂ : Nat) (acc₁ acc₂ : List Char),
      natToHexAux n v₁ acc₁ = natToHexAux n v₂ acc₂ →
      v₁ % 16 ^ n = v₂ % 16 ^ n ∧ acc₁ = acc₂ := by
  induction n with
  | zero =>
    intro v₁ v₂ acc₁ acc₂ h
    exact ⟨by omega, by simpa [natToHexAux] using h⟩
  | succ k ih =>
    intro v₁ v₂ acc₁ acc₂ h
    rw [natToHexAux, natToHexAux] at h
    obtain ⟨hdiv, hcons⟩ := ih _ _ _ _ h
    obtain ⟨hd, hacc⟩ := List.cons.injEq .. ▸ hcons
    have hmod : v₁ % 16 = v₂ % 16 :=
      hexDigit_inj _ (Nat.mod_lt _ (by norm_num)) _ (Nat.mod_lt _ (by norm_num)) hd
    refine ⟨?_, hacc⟩
    rw [pow_succ', Nat.mod_mul, Nat.mod_mul, hmod, hdiv]

theorem sha256Nat_lt (msg : List Nat) : sha256Nat msg < 2 ^ 256 :=
  Nat.mod_lt _ (by norm_num)

theorem sha256hexdigest_inj {m₁ m₂ : List Nat}
    (h : sha256hexdigest m₁ = sha256hexdigest m₂) : sha256Nat m₁ = sha256Nat m₂ := by
  have h16 : (16 : Nat) ^ 64 = 2 ^ 256 := by norm_num [pow_succ]
  have := (natToHexAux_inj 64 _ _ [] [] h).1
  rwa [h16, Nat.mod_eq_of_lt (sha256Nat_lt m₁), Nat.mod_eq_of_lt (sha256Nat_lt m₂)] at this

/-! ### Claim theorems: the credential store -/

/-- C1: for every password `p` and every salt `secrets.token_hex(16)` can draw,
`verify_password p (hash_password p)` returns true: the credential round-trips
regardless of the random salt used while hashing. -/
theorem verify_password_hash_password (salt p : Str) (h : isTokenHex16 salt = true) :
    verify_password p (hash_password salt p) = true := by
  rw [verify_password, splitOnChar_hash_password p h]
  simp

/-- C1 witness at a concrete password and salt. -/
theorem verify_password_hash_password_witness :
    isTokenHex16 (List.replicate 32 '0') = true ∧
      verify_password "hunter2".data
        (hash_password (List.replicate 32 '0') "hunter2".data) = true :=
  ⟨by decide, verify_password_hash_password (List.replicate 32 '0') "hunter2".data (by decide)⟩

/-- C3: a malformed credential — one whose split on `":"` does not have exactly
two parts — makes `verify_password` return false for every password; the
`ValueError` is caught inside, so the function is total and never raises. -/
theorem verify_password_malformed (p c : Str) (h : (splitOnChar ':' c).length ≠ 2) :
    verify_password p c = false := by
  rw [verify_password]
  rcases hs : splitOnChar ':' c with - | ⟨a, - | ⟨b, - | ⟨d, t⟩⟩⟩
  · rfl
  · rfl
  · exact absurd (by rw [hs]; rfl) h
  · rfl

/-- C3 witness at the spec's own malformed credential. -/
theorem verify_password_malformed_witness :
    (splitOnChar ':' "not-a-valid-format".data).length ≠ 2 ∧
      verify_password "pw".data "not-a-valid-format".data = false :=
  ⟨by decide, verify_password_malformed "pw".data "not-a-valid-format".data (by decide)⟩

/-- C9: a credential built by `hash_password` parses back into exactly the
salt and the digest (so it has exactly one `":"`, the salt is 32 lowercase hex
characters, the digest 64, and the parsing step of `verify_password` never
reaches the `ValueError` branch). -/
theorem hash_password_wellFormed (salt p : Str) (h : isTokenHex16 salt = true) :
    splitOnChar ':' (hash_password salt p) =
        [salt, sha256hexdigest (utf8Encode (p ++ salt))] ∧
      (hash_password salt p).count ':' = 1 ∧
      salt.length = 32 ∧ salt.all isLowerHexChar = true ∧
      (sha256hexdigest (utf8Encode (p ++ salt))).length = 64 ∧
      (sha256hexdigest (utf8Encode (p ++ salt))).all isLowerHexChar = true := by
  obtain ⟨hlen, hall⟩ := Bool.and_eq_true .. ▸ h
  refine ⟨splitOnChar_hash_password p h, ?_, by simpa using hlen, hall,
    sha256hexdigest_length _, ?_⟩
  · rw [hash_password, List.count_append, List.count_cons,
      List.count_eq_zero.mpr (colon_not_mem_of_tokenHex h),
      List.count_eq_zero.mpr (colon_not_mem_sha256hexdigest _)]
    simp
  · exact List.all_eq_true.mpr (fun c hc => sha256hexdigest_lowerHex _ c hc)

/-- C9 witness at a concrete password and salt. -/
theorem hash_password_wellFormed_witness :
    isTokenHex16 (List.replicate 32 'a') = true ∧
      (splitOnChar ':' (hash_password (List.replicate 32 'a') "pw".data) =
          [List.replicate 32 'a',
            sha256hexdigest (utf8Encode ("pw".data ++ List.replicate 32 'a'))] ∧
        (hash_password (List.replicate 32 'a') "pw".data).count ':' = 1 ∧
        (List.replicate 32 'a').length = 32 ∧
        (List.replicate 32 'a').all isLowerHexChar = true ∧
        (sha256hexdigest (utf8Encode ("pw".data ++ List.replicate 32 'a'))).length = 64 ∧
        (sha256hexdigest (utf8Encode ("pw".data ++ List.replicate 32 'a'))).all
          isLowerHexChar = true) :=
  ⟨by decide, hash_password_wellFormed (List.replicate 32 'a') "pw".data (by decide)⟩

/-- C6 (amended): a credential hashed from `p` never verifies against a
different password `q` whenever the salted SHA-256 digests of `q` and `p`
differ — which is the case for every pair anyone can exhibit, since no SHA-256
collision is known.  The unconditional claim is refuted below. -/
theorem verify_password_wrong_password (salt p q : Str)
    (hsalt : isTokenHex16 salt = true)
    (hne : sha256Nat (utf8Encode (q ++ salt)) ≠ sha256Nat (utf8Encode (p ++ salt))) :
    verify_password q (hash_password salt p) = false := by
  rw [verify_password, splitOnChar_hash_password p hsalt]
  rcases hb : sha256hexdigest (utf8Encode (q ++ salt))
      == sha256hexdigest (utf8Encode (p ++ salt)) with - | -
  · simpa using hb
  · exact absurd (sha256hexdigest_inj (eq_of_beq hb)) hne

/-- C6 witness at concrete distinct passwords and a concrete salt. -/
theorem verify_password_wrong_password_witness :
    isTokenHex16 (List.replicate 32 '0') = true ∧
      sha256Nat (utf8Encode ("abd".data ++ List.replicate 32 '0'))
        ≠ sha256Nat (utf8Encode ("abc".data ++ List.replicate 32 '0')) ∧
      verify_password "abd".data
        (hash_password (List.replicate 32 '0') "abc".data) = false :=
  ⟨by decide, by decide,
    verify_password_wrong_password (List.replicate 32 '0') "abc".data "abd".data
      (by decide) (by decide)⟩

/-- C6 counterexample: as stated — for ALL `p ≠ q` the wrong password is
rejected — the claim is false, because SHA-256 maps infinitely many salted
passwords into finitely many 256-bit digests, so two distinct passwords with
the same salted digest exist, and the credential of one verifies under the
other.  No such pair is explicitly known, but its existence is forced by the
pigeonhole principle. -/
theorem verify_password_wrong_password_collision :
    ∃ (p q salt : Str), isTokenHex16 salt = true ∧ p ≠ q ∧
      verify_password q (hash_password salt p) = true := by
  classical
  set salt : Str := List.replicate 32 '0' with hsaltdef
  obtain ⟨m, n, hmn, heq⟩ := Finite.exists_ne_map_eq_of_infinite
    (fun k : Nat =>
      (⟨sha256Nat (utf8Encode (List.replicate k 'a' ++ salt)),
        sha256Nat_lt _⟩ : Fin (2 ^ 256)))
  refine ⟨List.replicate m 'a', List.replicate n 'a', salt, by decide, ?_, ?_⟩
  · intro h
    exact hmn (by simpa using congrArg List.length h)
  · have hsha : sha256Nat (utf8Encode (List.replicate n 'a' ++ salt))
        = sha256Nat (utf8Encode (List.replicate m 'a' ++ salt)) :=
      (Fin.mk.injEq .. ▸ heq).symm
    rw [verify_password, splitOnChar_hash_password _ (by decide)]
    simp only [sha256hexdigest]
    rw [hsha]
    simp

/-- C7: two `hash_password` calls on the same password that draw distinct
salts return credentials that are not byte-equal (the salt prefixes differ). -/
theorem hash_password_salt_freshness (salt₁ salt₂ p : Str)
    (h₁ : isTokenHex16 salt₁ = true) (h₂ : isTokenHex16 salt₂ = true)
    (hne : salt₁ ≠ salt₂) :
    hash_password salt₁ p ≠ hash_password salt₂ p := by
  intro h
  have := congrArg (splitOnChar ':') h
  rw [splitOnChar_hash_password p h₁, splitOnChar_hash_password p h₂] at this
  exact hne (List.cons.injEq .. ▸ this).1

/-- C7 witness at two concrete distinct salts. -/
theorem hash_password_salt_freshness_witness :
    isTokenHex16 (List.replicate 32 '0') = true ∧
      isTokenHex16 (List.replicate 32 '1') = true ∧
      List.replicate 32 '0' ≠ (List.replicate 32 '1' : Str) ∧
      hash_password (List.replicate 32 '0') "pw".data
        ≠ hash_password (List.replicate 32 '1') "pw".data :=
  ⟨by decide, by decide, by decide,
    hash_password_salt_freshness (List.replicate 32 '0') (List.replicate 32 '1')
      "pw".data (by decide) (by decide) (by decide)⟩

/-! ### Facts about `token_urlsafe` -/

theorem b64UrlEncodeAux_length :
    ∀ (fuel : Nat) (l : List Nat), l.length ≤ fuel →
      (b64UrlEncodeAux fuel l).length = b64Len l.length := by
  intro fuel
  induction fuel with
  | zero =>
    intro l hl
    rw [List.length_eq_zero.mp (Nat.le_zero.mp hl)]
    rfl
  | succ k ih =>
    intro l hl
    match l with
    | [] => rfl
    | [b₁] => simp [b64UrlEncodeAux, b64Len]
    | [b₁, b₂] => simp [b64UrlEncodeAux, b64Len]
    | b₁ :: b₂ :: b₃ :: rest =>
      have hr : rest.length ≤ k := by simp at hl; omega
      rw [b64UrlEncodeAux]
      simp only [List.length_cons, ih rest hr, b64Len]
      have h₁ : (rest.length + 1 + 1 + 1) / 3 = rest.length / 3 + 1 := by omega
      have h₂ : (rest.length + 1 + 1 + 1) % 3 = rest.length % 3 := by omega
      rw [h₁, h₂]
      split <;> omega

theorem isUrlSafeChar_b64Char_and63 (x : Nat) : isUrlSafeChar (b64Char (x &&& 63)) = true := by
  have h64 : x &&& 63 < 64 := Nat.lt_succ_of_le Nat.and_le_right
  revert h64
  generalize x &&& 63 = k
  revert k
  decide

theorem b64UrlEncodeAux_urlSafe :
    ∀ (fuel : Nat) (l : List Nat), (b64UrlEncodeAux fuel l).all isUrlSafeChar = true := by
  intro fuel
  induction fuel with
  | zero => intro l; rfl
  | succ k ih =>
    intro l
    match l with
    | [] => rfl
    | [b₁] => simp [b64UrlEncodeAux, isUrlSafeChar_b64Char_and63]
    | [b₁, b₂] => simp [b64UrlEncodeAux, isUrlSafeChar_b64Char_and63]
    | b₁ :: b₂ :: b₃ :: rest =>
      rw [b64UrlEncodeAux]
      simp [List.all_cons, isUrlSafeChar_b64Char_and63, ih rest]

/-! ### Claim theorems: the session registry -/

/-- C8 counterexample: the claim promises tokens of 64 or more characters, but
`secrets.token_urlsafe(32)` — base64 of 32 bytes with padding stripped —
returns 43 characters; shown here on the concrete draw of 32 zero bytes. -/
theorem create_session_token_length_counterexample :
    (create_session 0 (List.replicate 32 0) 1 "doctor".data (fun _ => none)).1.length = 43 ∧
      (create_session 0 (List.replicate 32 0) 1 "doctor".data (fun _ => none)).1.length < 64 := by
  constructor <;> decide

/-- C8 (amended): every token `create_session` returns from 32 random bytes is
a URL-safe string of exactly 43 characters (not 64 or more). -/
theorem create_session_token_urlSafe (now : Int) (bytes : List Nat) (uid : Int)
    (role : Str) (m : Registry) (h : bytes.length = 32) :
    (create_session now bytes uid role m).1.length = 43 ∧
      (create_session now bytes uid role m).1.all isUrlSafeChar = true := by
  refine ⟨?_, b64UrlEncodeAux_urlSafe _ _⟩
  rw [create_session, token_urlsafe, b64UrlEncodeAux_length _ _ le_rfl, h]
  rfl

/-- C8 witness at a concrete draw of 32 bytes. -/
theorem create_session_token_urlSafe_witness :
    (List.replicate 32 7).length = 32 ∧
      ((create_session 0 (List.replicate 32 7) 4 "patient".data (fun _ => none)).1.length = 43 ∧
        (create_session 0 (List.replicate 32 7) 4 "patient".data
          (fun _ => none)).1.all isUrlSafeChar = true) :=
  ⟨by decide,
    create_session_token_urlSafe 0 (List.replicate 32 7) 4 "patient".data
      (fun _ => none) (by decide)⟩

/-- C2: when a stored session's age reaches 24 hours, `get_session` returns
`none` AND removes the entry from the dictionary, so a later `get_session` on
the same token (at any time) is also `none`: the entry was purged, not masked. -/
theorem get_session_expired (now later : Int) (t : Str) (m : Registry) (s : SessionData)
    (hpres : m t = some s) (hexp : sessionLifetime ≤ now - s.created_at) :
    (get_session now t m).1 = none ∧
      (get_session now t m).2 t = none ∧
      (get_session later t (get_session now t m).2).1 = none := by
  have hlt : ¬ now - s.created_at < sessionLifetime := not_lt.mpr hexp
  have h2 : (get_session now t m).2 t = none := by
    simp [get_session, hpres, hlt]
  refine ⟨?_, h2, ?_⟩
  · simp [get_session, hpres, hlt]
  · rw [get_session, h2]

/-- C2 witness: a session created at time 0 read exactly 24 hours later. -/
theorem get_session_expired_witness :
    ((fun u => if u = "t".data then
        some { user_id := 7, role := "patient".data, created_at := 0 }
      else none) : Registry) "t".data
        = some { user_id := 7, role := "patient".data, created_at := 0 } ∧
      sessionLifetime ≤ sessionLifetime - (0 : Int) ∧
      ((get_session sessionLifetime "t".data
          (fun u => if u = "t".data then
            some { user_id := 7, role := "patient".data, created_at := 0 }
          else none)).1 = none ∧
        (get_session sessionLifetime "t".data
          (fun u => if u = "t".data then
            some { user_id := 7, role := "patient".data, created_at := 0 }
          else none)).2 "t".data = none ∧
        (get_session (2 * sessionLifetime) "t".data
          (get_session sessionLifetime "t".data
            (fun u => if u = "t".data then
              some { user_id := 7, role := "patient".data, created_at := 0 }
            else none)).2).1 = none) :=
  ⟨by decide, by decide,
    get_session_expired sessionLifetime (2 * sessionLifetime) "t".data
      (fun u => if u = "t".data then
        some { user_id := 7, role := "patient".data, created_at := 0 }
      else none)
      { user_id := 7, role := "patient".data, created_at := 0 }
      (by decide) (by decide)⟩

/-- C4: a `get_session` within 24 hours of `create_session` returns exactly
the stored session — the caller's user id and role, stamped `created_at = now`
(the spec's `get(create(1, "doctor")) = {subject_id: 1, role: "doctor"}`). -/
theorem get_session_create_session (now later : Int) (bytes : List Nat) (uid : Int)
    (role : Str) (m : Registry) (hfresh : later - now < sessionLifetime) :
    (get_session later (create_session now bytes uid role m).1
        (create_session now bytes uid role m).2).1
      = some { user_id := uid, role := role, created_at := now } := by
  rw [create_session, get_session]
  simp [hfresh]

/-- C4 witness: the spec's own example, `get(create(1, "doctor"))`. -/
theorem get_session_create_session_witness :
    (0 : Int) - 0 < sessionLifetime ∧
      (get_session 0 (create_session 0 (List.replicate 32 0) 1 "doctor".data
          (fun _ => none)).1
        (create_session 0 (List.replicate 32 0) 1 "doctor".data (fun _ => none)).2).1
      = some { user_id := 1, role := "doctor".data, created_at := 0 } :=
  ⟨by decide,
    get_session_create_session 0 0 (List.replicate 32 0) 1 "doctor".data
      (fun _ => none) (by decide)⟩

/-- C5: `delete_session` followed by `get_session` on the same token yields
`none`, and deleting an absent token leaves the dictionary untouched; both
operations are total functions with no failure path (deletion is idempotent). -/
theorem delete_session_get_session (now : Int) (t : Str) (m : Registry) :
    (get_session now t (delete_session t m)).1 = none ∧
      (m t = none → delete_session t m = m) ∧
      delete_session t (delete_session t m) = delete_session t m := by
  have hdel : delete_session t m t = none := by
    rw [delete_session]
    cases h : m t with
    | none => exact h
    | some s => simp
  refine ⟨?_, ?_, ?_⟩
  · rw [get_session, hdel]
  · intro h
    rw [delete_session, h]
  · rw [delete_session, hdel]

/-- C5 witness: deleting and re-reading, on fully concrete state. -/
theorem delete_session_get_session_witness :
    (get_session 0 "t".data
        (delete_session "t".data
          (fun u => if u = "t".data then
            some { user_id := 7, role := "patient".data, created_at := 0 }
          else none))).1 = none ∧
      delete_session "x".data ((fun _ => none) : Registry) = (fun _ => none) :=
  ⟨(delete_session_get_session 0 "t".data _).1,
    (delete_session_get_session 0 "x".data _).2.1 rfl⟩

/-- C10: the frame conditions of the registry operations — `delete_session`
and an expiring `get_session` on `t` leave every other token's entry unchanged,
`get_session` on a live or absent token leaves the whole dictionary unchanged,
and `create_session` writes exactly its own token's entry. -/
theorem registry_frame (now : Int) (bytes : List Nat) (uid : Int) (role : Str)
    (t : Str) (m : Registry) :
    (∀ u, u ≠ t → delete_session t m u = m u) ∧
      (∀ u, u ≠ t → (get_session now t m).2 u = m u) ∧
      (∀ s, m t = some s → now - s.created_at < sessionLifetime →
        (get_session now t m).2 = m) ∧
      (m t = none → (get_session now t m).2 = m) ∧
      (∀ u, u ≠ (create_session now bytes uid role m).1 →
        (create_session now bytes uid role m).2 u = m u) ∧
      (create_session now bytes uid role m).2 (create_session now bytes uid role m).1
        = some { user_id := uid, role := role, created_at := now } := by
  refine ⟨?_, ?_, ?_, ?_, ?_, ?_⟩
  · intro u hu
    rw [delete_session]
    cases m t with
    | none => rfl
    | some s => simp [hu]
  · intro u hu
    rw [get_session]
    cases m t with
    | none => rfl
    | some s =>
      dsimp only
      split
      · rfl
      · simp [hu]
  · intro s hs hlive
    simp [get_session, hs, hlive]
  · intro hs
    rw [get_session, hs]
  · intro u hu
    simp only [create_session] at hu ⊢
    simp [hu]
  · rw [create_session]
    simp

end AarogyaSaathi
